import Mathlib

/-!
# Digital canvas history model — verification of the spec against the code

Shallow embedding of the canvas state machine and undo/redo history of
`src/src/pages/DigitalCanvas.jsx` (component `DigitalArtCanvas`).

Modelling decisions:
* A `Snapshot` abstracts the string returned by `canvas.toDataURL()`; only
  its decidable equality matters (`!==` on JS strings compares values), so
  it is modelled as `Nat`.
* The visible pixel buffer (`canvas`) is carried in the state as its current
  encoding `surface : Snapshot`; `canvas.toDataURL()` reads it.
* Rasterization by the host canvas 2D API (`ctx.stroke`, `ctx.strokeRect`,
  `ctx.arc`, `ctx.clearRect`) is not part of the repository; the handlers
  take it as an explicit function argument (`paint`, `eraseAt`, `raster`)
  mapping a surface encoding and a drawing command to the new encoding.
  The geometry fed to those primitives (`ShapeCmd`) is computed exactly as
  in the source.
* The preview overlay canvas is never read into a snapshot and never feeds
  `history`, `redoStack` or the main surface, so it is not carried in the
  state.
* `restoreCanvas` is asynchronous in the host (image decode); here the
  restored encoding is written synchronously — it is exactly "the state to
  restore" that the spec's history contract talks about.
* React `useState` setters within a single event handler are modelled as
  sequential record updates: the event model runs each handler to
  completion before the next event's render.
-/

/-- The encoding of a surface's pixel content, `canvas.toDataURL()`
(value equality, modelled as `Nat`). -/
abbrev Snapshot := Nat

/-- Tool mode, `DigitalCanvas.jsx:16`: "draw", "erase", "rectangle", "circle". -/
inductive Mode where
  | draw
  | erase
  | rectangle
  | circle
deriving DecidableEq, Repr

/-- A surface-local pointer position (`getCanvasCoordinates`,
`DigitalCanvas.jsx:96`). -/
structure Point where
  x : Int
  y : Int
deriving DecidableEq, Repr

/-- A drawing command handed to the canvas 2D API on shape commit
(`DigitalCanvas.jsx:167-173`).  `rect x y w h` is `ctx.strokeRect(x, y, w, h)`
with signed, unclamped width/height; `circle cx cy w h` is
`ctx.arc(cx, cy, Math.sqrt(w*w + h*h), 0, 2*Math.PI)` recorded by the signed
offsets `w`, `h` that determine the radius. -/
inductive ShapeCmd where
  | rect (x y w h : Int)
  | circle (cx cy w h : Int)
deriving DecidableEq, Repr

/-- The component state of `DigitalArtCanvas` that the history claims are
about (`DigitalCanvas.jsx:13-19`): the `isDrawing` flag, the shape anchor
`startPos`, the committed `history`, the `redoStack`, the current tool
`mode`, and the encoding of the visible canvas (`surface`). -/
structure CanvasState where
  isDrawing : Bool
  startPos : Option Point
  history : List Snapshot
  redoStack : List Snapshot
  mode : Mode
  surface : Snapshot
deriving DecidableEq, Repr

/-- The blank pixel content of a freshly sized canvas. -/
def blank : Snapshot := 0

/-- State after `setupCanvas` on mount (`DigitalCanvas.jsx:18-19,29-51`):
`history` and `redoStack` start as `[]` (`useState([])`), `isDrawing` is
`false`, `startPos` is `null`, the default mode is `"draw"`, and the sized
canvas is blank.  `setupCanvas` itself only sizes the canvas and creates the
overlay; it records no snapshot. -/
def initState : CanvasState :=
  { isDrawing := false
    startPos := none
    history := []
    redoStack := []
    mode := Mode.draw
    surface := blank }

/-- `getCanvasCoordinates` (`DigitalCanvas.jsx:96-99`): viewport position
minus the canvas bounding box top-left. -/
def getCanvasCoordinates (clientX clientY rectLeft rectTop : Int) : Point :=
  { x := clientX - rectLeft, y := clientY - rectTop }

/-- `saveHistory` (`DigitalCanvas.jsx:54-61`): read `imageData =
canvas.toDataURL()` — here `s.surface`; if `history.length === 0 ||
history[history.length - 1] !== imageData`, append `imageData` to `history`
and clear `redoStack`; otherwise do nothing. -/
def saveHistory (s : CanvasState) : CanvasState :=
  if s.history.length = 0 ∨ s.history.getLast? ≠ some s.surface then
    { s with history := s.history ++ [s.surface], redoStack := [] }
  else
    s

/-- `undo` (`DigitalCanvas.jsx:64-72`): if `history.length > 1`, pop the
last entry, push it onto the front of `redoStack`, and restore
`newHistory[newHistory.length - 1]` to the canvas.  The `getLastD` defaults
are never used under the length guard. -/
def undo (s : CanvasState) : CanvasState :=
  if 1 < s.history.length then
    { s with
      history := s.history.dropLast
      redoStack := s.history.getLastD s.surface :: s.redoStack
      surface := s.history.dropLast.getLastD s.surface }
  else
    s

/-- `redo` (`DigitalCanvas.jsx:75-82`): if `redoStack` is non-empty, take
`redoStack[0]`, append it to `history`, drop it from `redoStack`
(`slice(1)`), and restore it to the canvas. -/
def redo (s : CanvasState) : CanvasState :=
  match s.redoStack with
  | [] => s
  | nextState :: rest =>
    { s with
      history := s.history ++ [nextState]
      redoStack := rest
      surface := nextState }

/-- `startDrawing` (`DigitalCanvas.jsx:102-113`): `saveHistory()` first
(pre-operation snapshot), then `setIsDrawing(true)`, and for the shape
modes record the anchor `startPos`.  `beginPath`/`moveTo`/`strokeStyle`/
`lineWidth` touch only the 2D context's path and style, not committed
pixels, so they do not change the surface encoding. -/
def startDrawing (p : Point) (s : CanvasState) : CanvasState :=
  let s1 := saveHistory s
  let s2 := { s1 with isDrawing := true }
  if s2.mode = Mode.rectangle ∨ s2.mode = Mode.circle then
    { s2 with startPos := some p }
  else
    s2

/-- `draw` (`DigitalCanvas.jsx:115-153`): no-op unless `isDrawing`.  In
`"draw"` mode `lineTo`/`stroke` paints onto the surface; in `"erase"` mode
`clearRect` clears a square patch; in the shape modes only the preview
overlay is repainted and the surface is untouched.  `paint` and `eraseAt`
are the host rasterizers for the stroke segment and the eraser patch. -/
def draw (paint : Snapshot → Point → Snapshot) (eraseAt : Snapshot → Point → Snapshot)
    (p : Point) (s : CanvasState) : CanvasState :=
  if s.isDrawing then
    match s.mode with
    | Mode.draw => { s with surface := paint s.surface p }
    | Mode.erase => { s with surface := eraseAt s.surface p }
    | Mode.rectangle => s
    | Mode.circle => s
  else
    s

/-- `stopDrawing` (`DigitalCanvas.jsx:155-181`): no-op unless `isDrawing`;
set `isDrawing` to `false`; then `if (!startPos) return` — the early return
skips everything below it, including the final `saveHistory()`.  With an
anchor present, compute `width = x - startPos.x`, `height = y - startPos.y`,
commit the shape for the shape modes via the host rasterizer `raster`,
clear the overlay (not modelled), clear `startPos`, and `saveHistory()`. -/
def stopDrawing (raster : Snapshot → ShapeCmd → Snapshot) (p : Point)
    (s : CanvasState) : CanvasState :=
  if s.isDrawing then
    let s1 := { s with isDrawing := false }
    match s1.startPos with
    | none => s1
    | some sp =>
      let width := p.x - sp.x
      let height := p.y - sp.y
      let surf :=
        if s1.mode = Mode.rectangle then
          raster s1.surface (ShapeCmd.rect sp.x sp.y width height)
        else if s1.mode = Mode.circle then
          raster s1.surface (ShapeCmd.circle sp.x sp.y width height)
        else
          s1.surface
      saveHistory { s1 with surface := surf, startPos := none }
  else
    s

/-- The history-facing operations of the component, for quantifying over
arbitrary operation sequences: `snapshot e` is `saveHistory` invoked when
the visible canvas encodes `e` (the only way the source calls it:
`DigitalCanvas.jsx:103,180`), plus `undo` and `redo`. -/
inductive CanvasOp where
  | snapshot (e : Snapshot)
  | undo
  | redo
deriving DecidableEq, Repr

/-- Apply one history-facing operation. -/
def applyOp (s : CanvasState) : CanvasOp → CanvasState
  | CanvasOp.snapshot e => saveHistory { s with surface := e }
  | CanvasOp.undo => undo s
  | CanvasOp.redo => redo s

/-- Apply a sequence of history-facing operations, left to right. -/
def applyOps (ops : List CanvasOp) (s : CanvasState) : CanvasState :=
  ops.foldl applyOp s

/-- The axis-aligned box `ctx.strokeRect(x, y, w, h)` covers: the canvas 2D
rasterizer accepts signed width/height as a direction, so the box spans from
`(x, y)` to `(x + w, y + h)` in either direction.  Returns
`(left, top, right, bottom)`; `none` for a circle command. -/
def rectBox : ShapeCmd → Option (Int × Int × Int × Int)
  | ShapeCmd.rect x y w h =>
    some (min x (x + w), min y (y + h), max x (x + w), max y (y + h))
  | ShapeCmd.circle _ _ _ _ => none

/-- Adjacent-distinctness of the whole committed-then-undone snapshot line:
`history ++ redoStack` has no two equal neighbours.  `undo` and `redo` move
the boundary along this line without changing it; `saveHistory` extends it. -/
def histInv (s : CanvasState) : Prop :=
  List.Chain' (fun a b => a ≠ b) (s.history ++ s.redoStack)

/-- A concrete state with a fresh unsaved surface, for exercising
`saveHistory`. -/
def sampleSnap : CanvasState :=
  { initState with history := [5], redoStack := [9], surface := 7 }

/-- A concrete two-entry history, for exercising `undo`. -/
def sampleUndo : CanvasState :=
  { initState with history := [3, 4], redoStack := [8], surface := 4 }

/-- A concrete state with a pending redo buffer, for exercising `redo`. -/
def sampleRedo : CanvasState :=
  { initState with history := [3], redoStack := [4, 8], surface := 3 }

/-- A concrete rectangle-mode state holding the anchor `(10, 10)`. -/
def sampleAnchor : CanvasState :=
  { initState with
    isDrawing := true
    startPos := some ⟨10, 10⟩
    mode := Mode.rectangle }

/-- A concrete rectangle-mode state whose anchor was never recorded. -/
def sampleNoAnchor : CanvasState :=
  { initState with isDrawing := true, mode := Mode.rectangle }

/-- A concrete state satisfying the adjacent-distinctness invariant. -/
def sampleInv : CanvasState :=
  { initState with history := [0, 1], redoStack := [2], surface := 1 }

/-! ## Helper lemmas -/

theorem saveHistory_surface (s : CanvasState) : (saveHistory s).surface = s.surface := by
  unfold saveHistory
  split <;> rfl

theorem saveHistory_of_getLast (s : CanvasState) (h : s.history.getLast? = some s.surface) :
    saveHistory s = s := by
  have hne : s.history.length ≠ 0 := by
    intro h0
    rw [List.length_eq_zero] at h0
    simp [h0] at h
  unfold saveHistory
  simp [hne, h]

theorem saveHistory_of_ne (s : CanvasState) (h : s.history.getLast? ≠ some s.surface) :
    saveHistory s = { s with history := s.history ++ [s.surface], redoStack := [] } := by
  unfold saveHistory
  simp [h]

/-! ## Claims -/

/-- C3: `saveHistory` appends the current surface encoding to the committed
history exactly when it differs from the last committed entry; when it
equals the last entry the whole state — in particular `history` and
`redoStack` — is unchanged, and the redo buffer is cleared exactly when an
append occurs. -/
theorem saveHistory_append_iff (s : CanvasState) :
    (s.history.getLast? ≠ some s.surface →
      (saveHistory s).history = s.history ++ [s.surface] ∧ (saveHistory s).redoStack = [])
    ∧ (s.history.getLast? = some s.surface → saveHistory s = s) := by
  constructor
  · intro h
    rw [saveHistory_of_ne s h]
    exact ⟨rfl, rfl⟩
  · exact saveHistory_of_getLast s

/-- Witness for C3: on `sampleSnap` (last entry `5`, surface `7`) the
snapshot appends and clears the redo buffer. -/
theorem saveHistory_append_iff_witness :
    (saveHistory sampleSnap).history = sampleSnap.history ++ [sampleSnap.surface]
    ∧ (saveHistory sampleSnap).redoStack = [] :=
  (saveHistory_append_iff sampleSnap).1 (by decide)

/-- C4: `undo` is a silent no-op when the committed history has at most one
entry; otherwise it removes exactly the last committed entry, pushes it onto
the front of the redo buffer, and restores the new last committed entry to
the surface. -/
theorem undo_spec (s : CanvasState) :
    (s.history.length ≤ 1 → undo s = s)
    ∧ (∀ l, 1 < s.history.length → s.history.getLast? = some l →
        (undo s).history = s.history.dropLast
        ∧ (undo s).redoStack = l :: s.redoStack
        ∧ s.history.dropLast.getLast? = some (undo s).surface) := by
  constructor
  · intro h
    unfold undo
    have : ¬ 1 < s.history.length := by omega
    simp [this]
  · intro l hlen hlast
    have hd : s.history.dropLast ≠ [] := by
      intro h0
      have := congrArg List.length h0
      simp [List.length_dropLast] at this
      omega
    unfold undo
    rw [if_pos hlen]
    refine ⟨rfl, ?_, ?_⟩
    · simp [List.getLastD_eq_getLast?, hlast]
    · simp [List.getLastD_eq_getLast?, List.getLast?_eq_getLast _ hd]

/-- Witness for C4: on `sampleUndo` (history `[3, 4]`) undo pops `4`,
pushes it onto the redo buffer, and restores `3`. -/
theorem undo_spec_witness :
    (undo sampleUndo).history = sampleUndo.history.dropLast
    ∧ (undo sampleUndo).redoStack = 4 :: sampleUndo.redoStack
    ∧ sampleUndo.history.dropLast.getLast? = some (undo sampleUndo).surface :=
  (undo_spec sampleUndo).2 4 (by decide) (by decide)

/-- C5: `redo` is a silent no-op when the redo buffer is empty; otherwise it
removes exactly the front entry of the redo buffer, appends it to the
committed history, and restores that entry to the surface. -/
theorem redo_spec (s : CanvasState) :
    (s.redoStack = [] → redo s = s)
    ∧ (∀ n rest, s.redoStack = n :: rest →
        (redo s).history = s.history ++ [n]
        ∧ (redo s).redoStack = rest
        ∧ (redo s).surface = n) := by
  constructor
  · intro h
    unfold redo
    rw [h]
  · intro n rest h
    unfold redo
    rw [h]
    exact ⟨rfl, rfl, rfl⟩

/-- Witness for C5: on `sampleRedo` (redo buffer `[4, 8]`) redo moves `4`
back onto the history and restores it. -/
theorem redo_spec_witness :
    (redo sampleRedo).history = sampleRedo.history ++ [4]
    ∧ (redo sampleRedo).redoStack = [8]
    ∧ (redo sampleRedo).surface = 4 :=
  (redo_spec sampleRedo).2 4 [8] (by decide)

/-- C9: a pointer-up or pointer-leave in a shape mode with no recorded
anchor is a silent no-op: `stopDrawing` returns before computing any
geometry (`if (!startPos) return`), leaving the surface, the committed
history and the redo buffer unchanged, raising no fault. -/
theorem stopDrawing_no_anchor_noop (raster : Snapshot → ShapeCmd → Snapshot)
    (p : Point) (s : CanvasState)
    (_hmode : s.mode = Mode.rectangle ∨ s.mode = Mode.circle)
    (h : s.startPos = none) :
    (stopDrawing raster p s).surface = s.surface
    ∧ (stopDrawing raster p s).history = s.history
    ∧ (stopDrawing raster p s).redoStack = s.redoStack := by
  unfold stopDrawing
  cases hd : s.isDrawing
  · simp
  · simp only [if_pos]
    rw [show ({ s with isDrawing := false } : CanvasState).startPos = s.startPos from rfl, h]
    exact ⟨rfl, rfl, rfl⟩

/-- Witness for C9: pointer-up at `(3, 4)` in rectangle mode on
`sampleNoAnchor` (anchor never recorded) changes nothing. -/
theorem stopDrawing_no_anchor_noop_witness :
    (stopDrawing (fun su _ => su) ⟨3, 4⟩ sampleNoAnchor).surface = sampleNoAnchor.surface
    ∧ (stopDrawing (fun su _ => su) ⟨3, 4⟩ sampleNoAnchor).history = sampleNoAnchor.history
    ∧ (stopDrawing (fun su _ => su) ⟨3, 4⟩ sampleNoAnchor).redoStack = sampleNoAnchor.redoStack :=
  stopDrawing_no_anchor_noop (fun su _ => su) ⟨3, 4⟩ sampleNoAnchor (Or.inl rfl) rfl

/-- C8: a rectangle commit hands the rasterizer the axis-aligned box whose
opposite corners are the anchor and the release point, with signed width
`release.x - anchor.x` and height `release.y - anchor.y` passed through
unclamped; swapping anchor and release yields a geometrically identical
box. -/
theorem rect_commit_direction_agnostic (raster : Snapshot → ShapeCmd → Snapshot)
    (a r : Point) (s : CanvasState)
    (hd : s.isDrawing = true) (ha : s.startPos = some a)
    (hm : s.mode = Mode.rectangle) :
    (stopDrawing raster r s).surface
      = raster s.surface (ShapeCmd.rect a.x a.y (r.x - a.x) (r.y - a.y))
    ∧ rectBox (ShapeCmd.rect a.x a.y (r.x - a.x) (r.y - a.y))
      = rectBox (ShapeCmd.rect r.x r.y (a.x - r.x) (a.y - r.y)) := by
  constructor
  · unfold stopDrawing
    rw [if_pos hd]
    rw [show ({ s with isDrawing := false } : CanvasState).startPos = s.startPos from rfl, ha]
    rw [saveHistory_surface]
    simp [hm]
  · simp only [rectBox, Option.some.injEq, Prod.mk.injEq]
    refine ⟨?_, ?_, ?_, ?_⟩ <;> omega

/-- Witness for C8: committing from anchor `(10, 10)` (state
`sampleAnchor`) to release `(50, 30)` rasterizes the signed box
`rect 10 10 40 20`, geometrically equal to the swapped commit
`rect 50 30 (-40) (-20)`. -/
theorem rect_commit_direction_agnostic_witness :
    (stopDrawing (fun _ _ => 7) ⟨50, 30⟩ sampleAnchor).surface
      = (fun (_ : Snapshot) (_ : ShapeCmd) => (7 : Snapshot)) sampleAnchor.surface
          (ShapeCmd.rect 10 10 (50 - 10) (30 - 10))
    ∧ rectBox (ShapeCmd.rect 10 10 (50 - 10) (30 - 10))
      = rectBox (ShapeCmd.rect 50 30 (10 - 50) (10 - 30)) :=
  rect_commit_direction_agnostic (fun _ _ => 7) ⟨10, 10⟩ ⟨50, 30⟩ sampleAnchor rfl rfl rfl

/-- C1 (evaluation at the failing input): a completed freehand stroke in
`"draw"` mode — pointer-down on the blank canvas, one painting move, then
pointer-up — transitions back to Idle with the committed history still
holding only the pre-operation snapshot: `stopDrawing` returns at the
`startPos` guard before its `saveHistory()`, so the visible surface does
not equal the last committed entry after the operation. -/
theorem freehand_stop_skips_snapshot :
    (let p : Point := ⟨1, 0⟩
     let s1 := startDrawing p initState
     let s2 := draw (fun _ q => q.x.natAbs) (fun su _ => su) p s1
     let s3 := stopDrawing (fun su _ => su) p s2
     s3.isDrawing = false ∧ s3.history = [blank] ∧ s3.surface = 1
       ∧ s3.history.getLast? ≠ some s3.surface) := by
  decide

/-- C2 (evaluation at the failing input): after two freehand strokes and an
`undo`, performing a further freehand stroke — a new committed operation,
its pixels permanently applied — leaves the redo buffer non-empty, and the
following `redo()` is not a no-op: it appends the stale entry back and
overwrites the surface. -/
theorem redo_live_after_freehand_commit :
    (let paint : Snapshot → Point → Snapshot := fun _ q => q.x.natAbs
     let er : Snapshot → Point → Snapshot := fun su _ => su
     let ras : Snapshot → ShapeCmd → Snapshot := fun su _ => su
     let stroke : Point → CanvasState → CanvasState :=
       fun q s => stopDrawing ras q (draw paint er q (startDrawing q s))
     let t := stroke ⟨3, 0⟩ (undo (stroke ⟨2, 0⟩ (stroke ⟨1, 0⟩ initState)))
     t.redoStack = [1] ∧ t.surface = 3 ∧ redo t ≠ t ∧ (redo t).surface = 1) := by
  decide

theorem applyOp_history_head (s : CanvasState) (op : CanvasOp) (h : s.history ≠ []) :
    (applyOp s op).history ≠ [] ∧ (applyOp s op).history.head? = s.history.head? := by
  obtain ⟨d, sp, hist, rs, m, su⟩ := s
  cases op with
  | snapshot e =>
    simp only [applyOp]
    unfold saveHistory
    split
    · refine ⟨by simp, ?_⟩
      cases hist with
      | nil => exact absurd rfl h
      | cons a t => simp
    · exact ⟨h, rfl⟩
  | undo =>
    simp only [applyOp]
    unfold undo
    split
    · rename_i hl
      cases hist with
      | nil => simp at hl
      | cons a t =>
        cases t with
        | nil => simp at hl
        | cons b u => exact ⟨by simp, by simp⟩
    · exact ⟨h, rfl⟩
  | redo =>
    simp only [applyOp]
    unfold redo
    cases rs with
    | nil => exact ⟨h, rfl⟩
    | cons n rest =>
      refine ⟨by simp, ?_⟩
      cases hist with
      | nil => exact absurd rfl h
      | cons a t => simp

theorem applyOps_history_head (ops : List CanvasOp) (s : CanvasState) (h : s.history ≠ []) :
    (applyOps ops s).history ≠ [] ∧ (applyOps ops s).history.head? = s.history.head? := by
  induction ops generalizing s with
  | nil => exact ⟨h, rfl⟩
  | cons op rest ih =>
    have h1 := applyOp_history_head s op h
    have h2 := ih (applyOp s op) h1.1
    exact ⟨h2.1, h2.2.trans h1.2⟩

/-- C7 falsified at the concrete input it quantifies over: immediately after
initialization (`setupCanvas` records no snapshot, `useState([])`) the
committed history is empty, not "never empty". -/
theorem committed_empty_after_init : initState.history = [] := rfl

/-- C7 (amended): the committed history is empty right after
initialization; the first snapshot — taken by the first operation's
pre-operation save, while the canvas is still blank — makes it
`[blank]`, and from then on the history stays non-empty with the initial
blank entry first under every sequence of snapshot, undo and redo
operations. -/
theorem committed_floor_after_first_snapshot (ops : List CanvasOp) :
    (saveHistory initState).history = [blank]
    ∧ (applyOps ops (saveHistory initState)).history ≠ []
    ∧ (applyOps ops (saveHistory initState)).history.head? = some blank := by
  have h := applyOps_history_head ops (saveHistory initState) (by decide)
  exact ⟨rfl, h.1, h.2.trans (by decide)⟩

theorem applyOp_histInv (s : CanvasState) (op : CanvasOp) (h : histInv s) :
    histInv (applyOp s op) := by
  cases op with
  | snapshot e =>
    show histInv (saveHistory { s with surface := e })
    unfold saveHistory
    split
    · rename_i hc
      show List.Chain' (fun a b => a ≠ b) ((s.history ++ [e]) ++ [])
      rw [List.append_nil, List.chain'_append]
      unfold histInv at h
      rcases List.chain'_append.mp h with ⟨h1, _, _⟩
      refine ⟨h1, List.chain'_singleton e, ?_⟩
      intro x hx y hy
      simp only [List.head?_cons, Option.mem_def, Option.some.injEq] at hy
      subst hy
      rcases hc with hc | hc
      · rw [List.length_eq_zero] at hc
        rw [hc] at hx
        simp at hx
      · intro hxe
        rw [hxe] at hx
        exact hc hx
    · exact h
  | undo =>
    show histInv (undo s)
    unfold undo
    split
    · rename_i hl
      have hne : s.history ≠ [] := by
        intro h0
        rw [h0] at hl
        simp at hl
      have hgl : s.history.getLastD s.surface = s.history.getLast hne := by
        rw [List.getLastD_eq_getLast?, List.getLast?_eq_getLast _ hne]
        rfl
      have key : s.history.dropLast ++ s.history.getLastD s.surface :: s.redoStack
          = s.history ++ s.redoStack := by
        rw [hgl]
        conv_rhs => rw [← List.dropLast_append_getLast hne]
        rw [List.append_assoc, List.singleton_append]
      show List.Chain' (fun a b => a ≠ b)
        (s.history.dropLast ++ s.history.getLastD s.surface :: s.redoStack)
      rw [key]
      exact h
    · exact h
  | redo =>
    show histInv (redo s)
    unfold redo
    cases hr : s.redoStack with
    | nil => exact h
    | cons n rest =>
      show List.Chain' (fun a b => a ≠ b) ((s.history ++ [n]) ++ rest)
      rw [List.append_assoc, List.singleton_append]
      unfold histInv at h
      rw [hr] at h
      exact h

theorem applyOps_histInv (ops : List CanvasOp) (s : CanvasState) (h : histInv s) :
    histInv (applyOps ops s) := by
  induction ops generalizing s with
  | nil => exact h
  | cons op rest ih => exact ih (applyOp s op) (applyOp_histInv s op h)

/-- C10: in every state reachable from initialization by snapshot, undo and
redo operations, no two adjacent committed entries are equal; the
adjacent-distinctness of the whole snapshot line `history ++ redoStack` is
preserved by every single operation (snapshot refuses appends equal to the
top, undo and redo only move the history/redo boundary along the line). -/
theorem committed_adjacent_distinct (ops : List CanvasOp) :
    (∀ s op, histInv s → histInv (applyOp s op))
    ∧ histInv (applyOps ops initState)
    ∧ List.Chain' (fun a b => a ≠ b) ((applyOps ops initState).history) := by
  have hreach := applyOps_histInv ops initState (by simp [histInv, initState])
  refine ⟨fun s op h => applyOp_histInv s op h, hreach, ?_⟩
  unfold histInv at hreach
  exact (List.chain'_append.mp hreach).1

/-- Witness for C10: one concrete preservation step — undoing on
`sampleInv` (history `[0, 1]`, redo buffer `[2]`) keeps the snapshot line
`[0, 1, 2]` adjacent-distinct. -/
theorem committed_adjacent_distinct_witness :
    histInv (applyOp sampleInv CanvasOp.undo) :=
  (committed_adjacent_distinct []).1 sampleInv CanvasOp.undo
    (by simp [histInv, sampleInv, initState, List.chain'_cons, List.chain'_singleton])

theorem applyOps_nil (s : CanvasState) : applyOps [] s = s := rfl

theorem applyOps_cons (op : CanvasOp) (ops : List CanvasOp) (s : CanvasState) :
    applyOps (op :: ops) s = applyOps ops (applyOp s op) := rfl

theorem getLastD_eq_getLast (l : List Snapshot) (h : l ≠ []) (d : Snapshot) :
    l.getLastD d = l.getLast h := by
  rw [List.getLastD_eq_getLast?, List.getLast?_eq_getLast l h]
  rfl

theorem snapshot_step (s : CanvasState) (e : Snapshot)
    (hlast : s.history.getLast? = some s.surface) (hne : s.surface ≠ e) :
    applyOp s (CanvasOp.snapshot e)
      = { s with history := s.history ++ [e], redoStack := [], surface := e } := by
  have hc : s.history.getLast? ≠ some e := by
    rw [hlast]
    intro hEq
    exact hne (Option.some.injEq _ _ ▸ hEq)
  simp only [applyOp]
  unfold saveHistory
  rw [if_pos (Or.inr hc)]

theorem applyOps_snapshots (es : List Snapshot) (s : CanvasState)
    (hne : es ≠ [])
    (hlast : s.history.getLast? = some s.surface)
    (hch : List.Chain' (fun a b => a ≠ b) (s.surface :: es)) :
    applyOps (es.map CanvasOp.snapshot) s
      = { s with
          history := s.history ++ es
          redoStack := []
          surface := es.getLastD s.surface } := by
  induction es generalizing s with
  | nil => exact absurd rfl hne
  | cons e rest ih =>
    have hstep := snapshot_step s e hlast (List.chain'_cons.mp hch).1
    rw [List.map_cons, applyOps_cons, hstep]
    cases rest with
    | nil =>
      rw [List.map_nil, applyOps_nil]
      simp [CanvasState.mk.injEq, List.getLastD_eq_getLast?]
    | cons f rest2 =>
      have ih2 := ih { s with history := s.history ++ [e], redoStack := [], surface := e }
        (List.cons_ne_nil f rest2)
        (by simp [List.getLast?_concat])
        (by exact (List.chain'_cons.mp hch).2)
      rw [ih2]
      obtain ⟨m, hm⟩ := Option.isSome_iff_exists.mp
        (List.getLast?_isSome.mpr (List.cons_ne_nil f rest2))
      simp [CanvasState.mk.injEq, List.append_assoc, List.singleton_append,
        List.getLastD_cons, List.getLastD_eq_getLast?, hm]

theorem undo_step (base t : List Snapshot) (e : Snapshot) (s : CanvasState)
    (hb : base ≠ []) (hh : s.history = base ++ (t ++ [e])) :
    undo s
      = { s with
          history := base ++ t
          redoStack := e :: s.redoStack
          surface := (base ++ t).getLastD s.surface } := by
  have hlen : 1 < s.history.length := by
    rw [hh, ← List.append_assoc]
    simp only [List.length_append, List.length_cons, List.length_nil]
    have := List.length_pos.mpr hb
    omega
  unfold undo
  rw [if_pos hlen, hh, ← List.append_assoc]
  simp [CanvasState.mk.injEq, List.dropLast_concat, List.getLastD_eq_getLast?,
    List.getLast?_concat]

theorem undo_iter (tail base : List Snapshot) (s : CanvasState)
    (hb : base ≠ []) (ht : tail ≠ []) (hh : s.history = base ++ tail) :
    undo^[tail.length] s
      = { s with
          history := base
          redoStack := tail ++ s.redoStack
          surface := base.getLast hb } := by
  induction tail using List.reverseRecOn generalizing s with
  | nil => exact absurd rfl ht
  | append_singleton t e ih =>
    have hstep := undo_step base t e s hb hh
    by_cases ht2 : t = []
    · subst ht2
      simp only [List.nil_append, List.length_append, List.length_cons,
        List.length_nil, List.append_nil] at hstep ⊢
      rw [Function.iterate_one, hstep]
      simp [CanvasState.mk.injEq, List.getLastD_eq_getLast?,
        List.getLast?_eq_getLast _ hb]
    · have hlen : (t ++ [e]).length = t.length + 1 := by
        simp [List.length_append]
      rw [hlen, Function.iterate_succ_apply, hstep]
      have ih2 := ih { s with
          history := base ++ t
          redoStack := e :: s.redoStack
          surface := (base ++ t).getLastD s.surface }
        ht2 rfl
      rw [ih2]
      simp [CanvasState.mk.injEq, List.append_assoc, List.singleton_append]

theorem redo_step (q r : List Snapshot) (n : Snapshot) (s : CanvasState)
    (hr : s.redoStack = n :: (q ++ r)) :
    redo s
      = { s with
          history := s.history ++ [n]
          redoStack := q ++ r
          surface := n } := by
  unfold redo
  rw [hr]

theorem redo_iter (q r : List Snapshot) (s : CanvasState)
    (hq : q ≠ []) (hr : s.redoStack = q ++ r) :
    redo^[q.length] s
      = { s with
          history := s.history ++ q
          redoStack := r
          surface := q.getLast hq } := by
  induction q generalizing s with
  | nil => exact absurd rfl hq
  | cons n q2 ih =>
    have hstep := redo_step q2 r n s (by rw [hr]; rfl)
    by_cases hq2 : q2 = []
    · subst hq2
      rw [List.length_cons, List.length_nil, Function.iterate_one, hstep]
      simp [CanvasState.mk.injEq]
    · rw [List.length_cons, Function.iterate_succ_apply, hstep]
      have ih2 := ih { s with
          history := s.history ++ [n]
          redoStack := q2 ++ r
          surface := n }
        hq2 rfl
      rw [ih2]
      simp [CanvasState.mk.injEq, List.append_assoc, List.singleton_append,
        List.getLast_cons hq2]

/-- C6: starting from the initial blank snapshot, after committing the
encodings `es` (a linear history: each commit differs from the surface it
replaces), `undo` applied `es.length` times returns the history to
`[blank]` and the surface to the initial blank snapshot, and `redo`
applied `es.length` times restores exactly the post-commit state — undo
and redo are exact inverses along the linear, non-branching history. -/
theorem undo_redo_roundtrip (es : List Snapshot)
    (hch : List.Chain' (fun a b => a ≠ b) (blank :: es)) :
    (applyOps (es.map CanvasOp.snapshot) (saveHistory initState)).history = blank :: es
    ∧ (undo^[es.length]
        (applyOps (es.map CanvasOp.snapshot) (saveHistory initState))).history = [blank]
    ∧ (undo^[es.length]
        (applyOps (es.map CanvasOp.snapshot) (saveHistory initState))).surface = blank
    ∧ redo^[es.length] (undo^[es.length]
        (applyOps (es.map CanvasOp.snapshot) (saveHistory initState)))
      = applyOps (es.map CanvasOp.snapshot) (saveHistory initState) := by
  by_cases hne : es = []
  · subst hne
    exact ⟨rfl, rfl, rfl, rfl⟩
  · have hs0 : saveHistory initState
        = { isDrawing := false
            startPos := none
            history := [blank]
            redoStack := []
            mode := Mode.draw
            surface := blank } := by
      decide
    rw [hs0]
    have hA := applyOps_snapshots es
      { isDrawing := false
        startPos := none
        history := [blank]
        redoStack := []
        mode := Mode.draw
        surface := blank }
      hne rfl (by exact hch)
    rw [hA]
    have hB := undo_iter es [blank]
      { isDrawing := false
        startPos := none
        history := [blank] ++ es
        redoStack := []
        mode := Mode.draw
        surface := es.getLastD blank }
      (List.cons_ne_nil blank []) hne rfl
    rw [hB]
    have hC := redo_iter es []
      { isDrawing := false
        startPos := none
        history := [blank]
        redoStack := es ++ []
        mode := Mode.draw
        surface := [blank].getLast (List.cons_ne_nil blank []) }
      hne rfl
    rw [hC]
    refine ⟨rfl, rfl, rfl, ?_⟩
    simp only [CanvasState.mk.injEq, List.getLastD_eq_getLast?,
      List.getLast?_eq_getLast es hne, Option.getD_some, and_true, true_and]

/-- Witness for C6: the round trip at the concrete commit sequence
`[1, 2]`. -/
theorem undo_redo_roundtrip_witness :
    (applyOps ([1, 2].map CanvasOp.snapshot) (saveHistory initState)).history
      = blank :: [1, 2]
    ∧ (undo^[([1, 2] : List Snapshot).length]
        (applyOps ([1, 2].map CanvasOp.snapshot) (saveHistory initState))).history = [blank]
    ∧ (undo^[([1, 2] : List Snapshot).length]
        (applyOps ([1, 2].map CanvasOp.snapshot) (saveHistory initState))).surface = blank
    ∧ redo^[([1, 2] : List Snapshot).length] (undo^[([1, 2] : List Snapshot).length]
        (applyOps ([1, 2].map CanvasOp.snapshot) (saveHistory initState)))
      = applyOps ([1, 2].map CanvasOp.snapshot) (saveHistory initState) :=
  undo_redo_roundtrip [1, 2] (by simp [blank, List.chain'_cons, List.chain'_singleton])
